import Mathlib

/-!
Verification of the polyman opportunity-aggregation and risk-gate engine.

Shallow embedding of the core Python modules:
* `src/utils/helpers.py` — signal primitives (Kelly sizing, risk score)
* `src/strategies/base.py` — the `MarketOpportunity` record
* `src/services/risk_manager.py` — the stateful risk gate
* `src/main.py` — the aggregator (dedup + ranking) and decision loop
* `src/strategies/llm_expiring_markets.py` — model-assisted expiring-market
  strategy with rule-based fallback

Python floats are embedded as rationals (`ℚ`), Python ints as `ℤ`,
calendar dates as `ℕ` day numbers (the wall clock is passed explicitly),
and the risk manager's mutable attributes as an explicit state record.
-/

namespace Polyman

/-- Python's `int(x)` truncates toward zero. -/
def truncQ (q : ℚ) : ℤ := if 0 ≤ q then ⌊q⌋ else ⌈q⌉

/-- `helpers.calculate_kelly_size`: returns 0 when `current_price >= 1.0`,
otherwise `max(0, int(min(edge / (1 - current_price) * conservative_factor
* max_position, risk_limit)))`.  The Python function returns an int here,
so the embedding returns `ℤ`. -/
def calculate_kelly_size (edge current_price max_position risk_limit : ℚ)
    (conservative_factor : ℚ := 1/4) : ℤ :=
  if 1 ≤ current_price then 0
  else
    let kelly_fraction := edge / (1 - current_price)
    let raw_size := kelly_fraction * conservative_factor * max_position
    let final_size := min raw_size risk_limit
    max 0 (truncQ final_size)

/-- `helpers.calculate_risk_score`.  `hours_to_expiry` is `Optional` in the
source; the guard `hours_to_expiry and hours_to_expiry < 24` uses Python
truthiness, so both `None` and an expiry of exactly `0.0` hours skip the
time penalty. -/
def calculate_risk_score (volume : ℚ) (hours_to_expiry : Option ℚ) (edge : ℚ) : ℚ :=
  let volume_risk : ℚ := if volume < 50000 then 3/10 else 0
  let time_risk : ℚ :=
    match hours_to_expiry with
    | none => 0
    | some h => if h ≠ 0 ∧ h < 24 then 3/10 else 0
  let edge_risk : ℚ := if edge < 1/10 then 2/5 else 0
  volume_risk + time_risk + edge_risk

/-- The record built by `MarketOpportunity.__init__` in `strategies/base.py`. -/
structure MarketOpportunity where
  market_id : String
  question : String
  outcome : String
  current_price : ℚ
  predicted_probability : ℚ
  confidence : ℚ
  expected_value : ℚ
  news_signals : List String
  risk_score : ℚ
  volume : ℚ
  hours_to_expiry : Option ℚ
  edge : ℚ
deriving DecidableEq, Repr

/-- `MarketOpportunity.__init__`: stores its arguments and derives
`edge = abs(predicted_probability - current_price)`.  Every construction
site in the repository goes through this constructor, and
`self.edge = ...` on line 37 of `strategies/base.py` is the only
assignment to the attribute. -/
def MarketOpportunity.make (market_id question outcome : String)
    (current_price predicted_probability confidence expected_value : ℚ)
    (news_signals : List String) (risk_score : ℚ)
    (volume : ℚ := 0) (hours_to_expiry : Option ℚ := none) : MarketOpportunity :=
  { market_id := market_id
    question := question
    outcome := outcome
    current_price := current_price
    predicted_probability := predicted_probability
    confidence := confidence
    expected_value := expected_value
    news_signals := news_signals
    risk_score := risk_score
    volume := volume
    hours_to_expiry := hours_to_expiry
    edge := |predicted_probability - current_price| }

/-- The configuration values read by the risk manager
(`config.py`, loaded from environment variables). -/
structure Config where
  MAX_POSITION_SIZE : ℚ
  MIN_CONFIDENCE_THRESHOLD : ℚ
  MAX_DAILY_TRADES : ℤ
  MAX_OPEN_POSITIONS : ℤ
  RISK_LIMIT_PER_TRADE : ℚ
deriving DecidableEq, Repr

/-- The mutable attributes of `RiskManager`
(`services/risk_manager.py`): `daily_trades`, `last_reset`
(a calendar date, embedded as a day number), `open_positions`. -/
structure RMState where
  daily_trades : ℤ
  last_reset : ℕ
  open_positions : ℤ
deriving DecidableEq, Repr

/-- `RiskManager.__init__`: zero counters, `last_reset` set to today. -/
def RMState.mkInitial (today : ℕ) : RMState :=
  { daily_trades := 0, last_reset := today, open_positions := 0 }

/-- `RiskManager.reset_daily_counter`: if today is strictly later than
`last_reset`, zero `daily_trades` and advance `last_reset`. -/
def reset_daily_counter (today : ℕ) (s : RMState) : RMState :=
  if s.last_reset < today then
    { s with daily_trades := 0, last_reset := today }
  else s

/-- `RiskManager.can_trade`: runs the daily reset, then fails when
`daily_trades >= MAX_DAILY_TRADES` or
`open_positions >= MAX_OPEN_POSITIONS`.  Returns the flag together with
the updated state. -/
def can_trade (cfg : Config) (today : ℕ) (s : RMState) : Bool × RMState :=
  let s1 := reset_daily_counter today s
  if cfg.MAX_DAILY_TRADES ≤ s1.daily_trades then (false, s1)
  else if cfg.MAX_OPEN_POSITIONS ≤ s1.open_positions then (false, s1)
  else (true, s1)

/-- `RiskManager.record_trade`: increments both counters. -/
def record_trade (s : RMState) : RMState :=
  { s with daily_trades := s.daily_trades + 1
           open_positions := s.open_positions + 1 }

/-- `RiskManager.close_position`: decrements `open_positions` only when
it is strictly positive. -/
def close_position (s : RMState) : RMState :=
  if 0 < s.open_positions then
    { s with open_positions := s.open_positions - 1 }
  else s

/-- The fields of the opportunity dict consumed by
`RiskManager.evaluate_opportunity` (produced by
`MarketOpportunity.to_dict`, which always supplies every key). -/
structure OppData where
  volume : ℚ
  hours_to_expiry : Option ℚ
  edge : ℚ
  confidence : ℚ
  current_price : ℚ
  expected_value : ℚ
  news_signals : List String
deriving DecidableEq, Repr

/-- `MarketOpportunity.to_dict` restricted to the keys the risk manager
reads. -/
def MarketOpportunity.toData (o : MarketOpportunity) : OppData :=
  { volume := o.volume
    hours_to_expiry := o.hours_to_expiry
    edge := o.edge
    confidence := o.confidence
    current_price := o.current_price
    expected_value := o.expected_value
    news_signals := o.news_signals }

/-- One entry of the rationale string built by
`RiskManager._generate_reasoning`; each tag stands for one appended
sentence (the interpolated numbers of the Python f-strings are elided). -/
inductive ReasonTag where
  | confidenceMetric
  | expectedValueMetric
  | newsSupport
  | priceAdvantage
  | insufficientConfidence
  | expectedValueTooSmall
  | riskTooHigh
  | tradeLimitReached
deriving DecidableEq, Repr

/-- `RiskManager._generate_reasoning`.  The reject branch re-invokes
`self.can_trade()` (which can run the daily reset), so the updated state
is returned alongside the tags. -/
def generate_reasoning (cfg : Config) (today : ℕ) (s : RMState)
    (opp : OppData) (should_trade : Bool)
    (final_confidence risk_score : ℚ) : List ReasonTag × RMState :=
  if should_trade then
    (([ReasonTag.confidenceMetric, ReasonTag.expectedValueMetric]
        ++ (if opp.news_signals ≠ [] then [ReasonTag.newsSupport] else [])
        ++ [ReasonTag.priceAdvantage]), s)
  else
    let r1 := if final_confidence < cfg.MIN_CONFIDENCE_THRESHOLD then
        [ReasonTag.insufficientConfidence] else []
    let r2 := if opp.expected_value ≤ 5 then
        [ReasonTag.expectedValueTooSmall] else []
    let r3 := if 1/2 < risk_score then [ReasonTag.riskTooHigh] else []
    let ct := can_trade cfg today s
    let r4 := if ct.1 = false then [ReasonTag.tradeLimitReached] else []
    (r1 ++ r2 ++ r3 ++ r4, ct.2)

/-- The dict returned by `RiskManager.evaluate_opportunity`. -/
structure EvalResult where
  should_trade : Bool
  position_size : ℤ
  final_confidence : ℚ
  risk_score : ℚ
  reasoning : List ReasonTag
deriving DecidableEq, Repr

/-- `RiskManager.evaluate_opportunity`.  The `should_trade` conjunction
short-circuits in Python, so `can_trade` (and with it the daily reset)
runs inside the conjunction only when the four pure conditions hold;
`_generate_reasoning` then runs `can_trade` again in its reject branch. -/
def evaluate_opportunity (cfg : Config) (today : ℕ) (s : RMState)
    (opp : OppData) : EvalResult × RMState :=
  let risk_score := calculate_risk_score opp.volume opp.hours_to_expiry opp.edge
  let final_confidence := opp.confidence * (1 - risk_score)
  let position_size := calculate_kelly_size opp.edge opp.current_price
      cfg.MAX_POSITION_SIZE cfg.RISK_LIMIT_PER_TRADE
  let pre : Bool := decide (cfg.MIN_CONFIDENCE_THRESHOLD ≤ final_confidence)
      && decide (0 < position_size)
      && decide ((5 : ℚ) < opp.expected_value)
      && decide (risk_score < 1/2)
  let step := if pre then can_trade cfg today s else (false, s)
  let reasons := generate_reasoning cfg today step.2 opp step.1
      final_confidence risk_score
  ({ should_trade := step.1
     position_size := position_size
     final_confidence := final_confidence
     risk_score := risk_score
     reasoning := reasons.1 }, reasons.2)

/-- One externally triggered operation on the risk manager state. -/
inductive RMOp where
  | evaluate (today : ℕ) (opp : OppData)
  | record
  | close
deriving DecidableEq, Repr

/-- Apply one operation to the state (the result dict of an evaluation is
discarded; only its state effect is kept). -/
def applyOp (cfg : Config) (s : RMState) : RMOp → RMState
  | RMOp.evaluate today opp => (evaluate_opportunity cfg today s opp).2
  | RMOp.record => record_trade s
  | RMOp.close => close_position s

/-- Run a sequence of operations from a state. -/
def runOps (cfg : Config) (s : RMState) : List RMOp → RMState
  | [] => s
  | op :: ops => runOps cfg (applyOp cfg s op) ops

/-- One step of the dedup dict built in `PolymarketAgent.scan_and_trade`
(`main.py` lines 156-163).  The dict maps `market_id` to an opportunity;
a later entry replaces the stored one only when its `expected_value` is
strictly greater, and every slot keeps the position of its first
insertion (Python dicts preserve key-insertion order). -/
def updateSlot : List MarketOpportunity → MarketOpportunity → List MarketOpportunity
  | [], opp => [opp]
  | p :: rest, opp =>
    if p.market_id = opp.market_id then
      (if p.expected_value < opp.expected_value then opp else p) :: rest
    else
      p :: updateSlot rest opp

/-- `list(unique_opportunities.values())` after the dedup loop. -/
def dedup_by_market (opps : List MarketOpportunity) : List MarketOpportunity :=
  opps.foldl updateSlot []

/-- Descending order on `expected_value`;
`opportunities.sort(key=lambda x: x.expected_value, reverse=True)` is a
stable sort by this relation. -/
def evGe (a b : MarketOpportunity) : Prop :=
  b.expected_value ≤ a.expected_value

instance : DecidableRel evGe :=
  fun a b => inferInstanceAs (Decidable (b.expected_value ≤ a.expected_value))

instance : IsTotal MarketOpportunity evGe :=
  ⟨fun a b => le_total b.expected_value a.expected_value⟩

instance : IsTrans MarketOpportunity evGe :=
  ⟨fun _ _ _ hab hbc => le_trans hbc hab⟩

/-- The aggregation step of `scan_and_trade`: dedup by `market_id`, then
stable-sort the surviving opportunities by `expected_value` descending. -/
def aggregate (opps : List MarketOpportunity) : List MarketOpportunity :=
  (dedup_by_market opps).insertionSort evGe

/-- `PolymarketAgent.evaluate_and_execute`: evaluate the top ten
candidates and call `record_trade` only when `execute_trade` reports
success; `execute_trade` returns `True` exactly in mock-trading mode
(real execution is unimplemented and returns `False`). -/
def evaluate_and_execute (cfg : Config) (today : ℕ) (mock_trading : Bool)
    (s : RMState) (opps : List OppData) : RMState :=
  (opps.take 10).foldl
    (fun st opp =>
      let ev := evaluate_opportunity cfg today st opp
      if ev.1.should_trade && mock_trading then record_trade ev.2 else ev.2)
    s

/-- The strategy options built in `LLMExpiringMarketsStrategy.__init__`
(`enabled` and `use_llm_override` are never read on the analyze path and
are omitted). -/
structure ExpiringConfig where
  min_probability : ℚ
  max_hours_to_expiry : ℚ
  min_hours_to_expiry : ℚ
  min_volume : ℚ
  llm_confidence_threshold : ℚ
deriving DecidableEq, Repr

/-- The market fields read by `LLMExpiringMarketsStrategy.analyze_market`.
`hoursToExpiry` models the composite of the `endDate` key,
`parse_market_end_date` and `hours_until_expiry` at the current clock
(`none` when the key is absent or unparsable); `prices` models the
result of `extract_prices` and `outcomes` the parsed `outcomes` key
(including its `["Yes", "No"]` default on parse failure). -/
structure ExpMarket where
  conditionId : String
  question : String
  hoursToExpiry : Option ℚ
  volume : ℚ
  prices : List ℚ
  outcomes : List String
deriving DecidableEq, Repr

/-- A successfully parsed judgment reply: the dict returned by
`_parse_llm_response`, with the field defaults applied exactly where
`_analyze_with_llm` reads them. -/
structure LLMParsed where
  has_opportunity : Bool
  recommended_outcome : String
  confidence : ℚ
  expected_probability : ℚ
  reasoning : String
  risk_factors : List String
deriving DecidableEq, Repr

/-- `LLMExpiringMarketsStrategy._analyze_with_llm`.  `reply = none`
covers both a failed `call_with_retry` (timeout/unreachable, which that
helper converts to `None`) and an unparsable response
(`_parse_llm_response` returning `None`).  The interpolated numbers of
the signal strings are elided. -/
def analyze_with_llm (sc : ExpiringConfig) (m : ExpMarket)
    (prices : List ℚ) (outcomes : List String)
    (hours_to_exp volume : ℚ) (reply : Option LLMParsed) :
    List MarketOpportunity :=
  match reply with
  | none => []
  | some r =>
    if r.has_opportunity = false then []
    else if r.confidence < sc.llm_confidence_threshold then []
    else
      let recommended := r.recommended_outcome.toUpper
      match outcomes.findIdx? (fun o => o.toUpper == recommended) with
      | none => []
      | some i =>
        match prices.get? i with
        | none => []
        | some current_price =>
          let profit_margin := r.expected_probability - current_price
          let expected_return : ℚ :=
            if 0 < current_price then profit_margin / current_price * 100 else 0
          if profit_margin ≤ 0 then []
          else
            let news_signals :=
              ["llm analysis", "time to expiry", "current price",
               "expected probability", "expected return", r.reasoning]
              ++ (if r.risk_factors ≠ [] then ["risk factors"] else [])
            let price_risk := 1 - r.expected_probability
            let time_risk := min (3/10) (hours_to_exp / sc.max_hours_to_expiry)
            let volume_risk : ℚ := if volume < 50000 then 1/5 else 0
            let llm_risk := 1 - r.confidence
            let risk_score := (price_risk + time_risk + volume_risk + llm_risk) / 4
            [MarketOpportunity.make m.conditionId m.question recommended
              current_price r.expected_probability r.confidence expected_return
              news_signals risk_score volume (some hours_to_exp)]

/-- `LLMExpiringMarketsStrategy._analyze_with_rules`: the rule-based
fallback.  Indices past the end of the price list are skipped; the
high-probability and inverted low-probability checks are independent. -/
def analyze_with_rules (sc : ExpiringConfig) (m : ExpMarket)
    (prices : List ℚ) (outcomes : List String)
    (hours_to_exp volume : ℚ) : List MarketOpportunity :=
  outcomes.enum.flatMap fun io =>
    match prices.get? io.1 with
    | none => []
    | some price =>
      let outcome_name := io.2.toUpper
      let highSide : List MarketOpportunity :=
        if sc.min_probability ≤ price then
          let expected_return := (1 - price) * 100
          let price_conf := (price - sc.min_probability) / (1 - sc.min_probability)
          let time_conf := 1 - hours_to_exp / sc.max_hours_to_expiry
          let confidence := min (95/100) ((price_conf + time_conf) / 2)
          [MarketOpportunity.make m.conditionId m.question outcome_name price
            (99/100) confidence expected_return
            ["rule based", "time to expiry", "current price", "expected return"]
            (1 - price) volume (some hours_to_exp)]
        else []
      let lowSide : List MarketOpportunity :=
        if price ≤ 1 - sc.min_probability then
          let no_price := 1 - price
          let expected_return := (1 - no_price) * 100
          let price_conf := (no_price - sc.min_probability) / (1 - sc.min_probability)
          let time_conf := 1 - hours_to_exp / sc.max_hours_to_expiry
          let confidence := min (95/100) ((price_conf + time_conf) / 2)
          [MarketOpportunity.make m.conditionId m.question "NO" no_price
            (99/100) confidence expected_return
            ["rule based", "time to expiry", "no price", "expected return"]
            (1 - no_price) volume (some hours_to_exp)]
        else []
      highSide ++ lowSide

/-- `LLMExpiringMarketsStrategy.analyze_market`: eligibility filter
(expiry window, then volume), then the judgment path when the LLM is
enabled — falling through to the rule-based analysis whenever that path
yields no opportunity — else the rule-based analysis directly. -/
def analyze_market (sc : ExpiringConfig) (llm_enabled : Bool)
    (reply : Option LLMParsed) (m : ExpMarket) : List MarketOpportunity :=
  match m.hoursToExpiry with
  | none => []
  | some hours_to_exp =>
    if sc.max_hours_to_expiry < hours_to_exp ∨
        hours_to_exp < sc.min_hours_to_expiry then []
    else if m.volume < sc.min_volume then []
    else if llm_enabled then
      let llm_opps := analyze_with_llm sc m m.prices m.outcomes hours_to_exp
          m.volume reply
      if llm_opps ≠ [] then llm_opps
      else analyze_with_rules sc m m.prices m.outcomes hours_to_exp m.volume
    else analyze_with_rules sc m m.prices m.outcomes hours_to_exp m.volume

/-- Concrete opportunity: market `m1`, expected value 10. -/
def oppA : MarketOpportunity :=
  MarketOpportunity.make "m1" "qA" "YES" 0 1 1 10 [] 0

/-- Concrete opportunity: market `m2`, expected value 25, inserted before
`oppC`. -/
def oppB : MarketOpportunity :=
  MarketOpportunity.make "m2" "qB" "YES" 0 1 1 25 [] 0

/-- Concrete opportunity: market `m1` again, expected value 25, inserted
after `oppB`. -/
def oppC : MarketOpportunity :=
  MarketOpportunity.make "m1" "qC" "YES" 0 1 1 25 [] 0

/-- Concrete opportunity: market `m9`, expected value 10. -/
def oppX : MarketOpportunity :=
  MarketOpportunity.make "m9" "qX" "YES" 0 1 1 10 [] 0

/-- Concrete opportunity: market `m9`, expected value 25. -/
def oppY : MarketOpportunity :=
  MarketOpportunity.make "m9" "qY" "YES" 0 1 1 25 [] 0

end Polyman

/-- C1: for every `MarketOpportunity`, after construction `edge` equals
`abs(predicted_probability - current_price)` exactly: the constructor is
the only code path that sets `edge`, and it derives it from those two
fields. -/
theorem Polyman.MarketOpportunity.make_edge_eq_abs
    (market_id question outcome : String)
    (current_price predicted_probability confidence expected_value : ℚ)
    (news_signals : List String) (risk_score volume : ℚ)
    (hours_to_expiry : Option ℚ) :
    (Polyman.MarketOpportunity.make market_id question outcome current_price
        predicted_probability confidence expected_value news_signals
        risk_score volume hours_to_expiry).edge
      = |predicted_probability - current_price| := rfl

namespace Polyman

/-- Python's `max(0, int(x))` agrees with `max(0, floor(x))`: truncation
and floor differ only on negative non-integers, where both are clamped. -/
theorem max_zero_truncQ (q : ℚ) : max 0 (truncQ q) = max 0 ⌊q⌋ := by
  unfold truncQ
  split_ifs with h
  · rfl
  · push_neg at h
    have h1 : ⌈q⌉ ≤ 0 := Int.ceil_le.mpr (by push_cast; linarith)
    have h2 : ⌊q⌋ ≤ 0 := Int.floor_nonpos h.le
    omega

end Polyman

/-- C3: `calculate_kelly_size` returns 0 whenever `price ≥ 1`; for
`price < 1` it returns `min(edge/(1-price) * (1/4) * maxPosition,
riskLimit)` floored to a non-negative integer; and for every
non-negative risk limit the result is non-negative and at most the risk
limit.  The `price ≥ 1` domain case is total (fails closed, no
exception). -/
theorem Polyman.kelly_size_spec (edge price max_position risk_limit : ℚ)
    (hR : 0 ≤ risk_limit) :
    (1 ≤ price →
      Polyman.calculate_kelly_size edge price max_position risk_limit = 0) ∧
    (price < 1 →
      Polyman.calculate_kelly_size edge price max_position risk_limit
        = max 0 ⌊min (edge / (1 - price) * (1/4) * max_position) risk_limit⌋) ∧
    0 ≤ Polyman.calculate_kelly_size edge price max_position risk_limit ∧
    (Polyman.calculate_kelly_size edge price max_position risk_limit : ℚ)
      ≤ risk_limit := by
  by_cases h : 1 ≤ price
  · have h0 : Polyman.calculate_kelly_size edge price max_position risk_limit = 0 := by
      simp [Polyman.calculate_kelly_size, h]
    refine ⟨fun _ => h0, fun h1 => absurd h (not_le.mpr h1), ?_, ?_⟩
    · rw [h0]
    · rw [h0]; exact_mod_cast hR
  · push_neg at h
    have h0 : Polyman.calculate_kelly_size edge price max_position risk_limit
        = max 0 ⌊min (edge / (1 - price) * (1/4) * max_position) risk_limit⌋ := by
      simp only [Polyman.calculate_kelly_size, if_neg (not_le.mpr h)]
      exact Polyman.max_zero_truncQ _
    refine ⟨fun h1 => absurd h1 (not_le.mpr h), fun _ => h0, ?_, ?_⟩
    · rw [h0]; exact le_max_left 0 _
    · rw [h0]
      rcases le_or_lt ⌊min (edge / (1 - price) * (1/4) * max_position) risk_limit⌋ 0
        with hf | hf
      · rw [max_eq_left hf]
        exact_mod_cast hR
      · rw [max_eq_right hf.le]
        calc ((⌊min (edge / (1 - price) * (1/4) * max_position) risk_limit⌋ : ℤ) : ℚ)
            ≤ min (edge / (1 - price) * (1/4) * max_position) risk_limit :=
              Int.floor_le _
          _ ≤ risk_limit := min_le_right _ _

/-- Closed instance of C3 with its hypothesis discharged. -/
theorem Polyman.kelly_size_spec_witness :
    (0 : ℚ) ≤ 50 ∧
    0 ≤ Polyman.calculate_kelly_size (1/10) (1/2) 100 50 ∧
    (Polyman.calculate_kelly_size (1/10) (1/2) 100 50 : ℚ) ≤ 50 := by
  refine ⟨by norm_num, ?_, ?_⟩
  · exact (Polyman.kelly_size_spec (1/10) (1/2) 100 50 (by norm_num)).2.2.1
  · exact (Polyman.kelly_size_spec (1/10) (1/2) 100 50 (by norm_num)).2.2.2

/-- C4 counterexample: decreasing `hoursToExpiry` from 12 to 0 with the
other inputs fixed strictly decreases the risk score (the Python guard
`hours_to_expiry and hours_to_expiry < 24` treats an expiry of exactly 0
hours as falsy and drops the time penalty), refuting monotonicity as
claimed. -/
theorem Polyman.risk_score_hours_mono_cex :
    Polyman.calculate_risk_score 100000 (some 12) (2/10) = 3/10 ∧
    Polyman.calculate_risk_score 100000 (some 0) (2/10) = 0 ∧
    (0 : ℚ) ≤ 12 ∧
    Polyman.calculate_risk_score 100000 (some 0) (2/10)
      < Polyman.calculate_risk_score 100000 (some 12) (2/10) := by
  refine ⟨?_, ?_, by norm_num, ?_⟩ <;>
    norm_num [Polyman.calculate_risk_score]

/-- C4 (amended): the risk score always lies in `[0, 1]`; decreasing
volume or decreasing edge never decreases it; and decreasing a present
`hoursToExpiry` never decreases it as long as the decreased value is not
exactly 0 (an expiry of exactly 0 hours is treated like an absent expiry
and drops the time penalty). -/
theorem Polyman.risk_score_range_mono (v v' e e' h h' : ℚ) (ho : Option ℚ)
    (hv : v' ≤ v) (he : e' ≤ e) (hh : h' ≤ h) (hz : h' ≠ 0) :
    0 ≤ Polyman.calculate_risk_score v ho e ∧
    Polyman.calculate_risk_score v ho e ≤ 1 ∧
    Polyman.calculate_risk_score v ho e ≤ Polyman.calculate_risk_score v' ho e ∧
    Polyman.calculate_risk_score v ho e ≤ Polyman.calculate_risk_score v ho e' ∧
    Polyman.calculate_risk_score v (some h) e
      ≤ Polyman.calculate_risk_score v (some h') e := by
  refine ⟨?_, ?_, ?_, ?_, ?_⟩
  · rcases ho with _ | x <;>
      simp only [Polyman.calculate_risk_score] <;>
      split_ifs <;> norm_num
  · rcases ho with _ | x <;>
      simp only [Polyman.calculate_risk_score] <;>
      split_ifs <;> norm_num
  · simp only [Polyman.calculate_risk_score]
    have hvterm : (if v < 50000 then (3 : ℚ)/10 else 0)
        ≤ (if v' < 50000 then (3 : ℚ)/10 else 0) := by
      split_ifs with a b b
      · exact le_refl _
      · exact absurd (lt_of_le_of_lt hv a) b
      · norm_num
      · exact le_refl _
    linarith
  · simp only [Polyman.calculate_risk_score]
    have heterm : (if e < 1/10 then (2 : ℚ)/5 else 0)
        ≤ (if e' < 1/10 then (2 : ℚ)/5 else 0) := by
      split_ifs with a b b
      · exact le_refl _
      · exact absurd (lt_of_le_of_lt he a) b
      · norm_num
      · exact le_refl _
    linarith
  · simp only [Polyman.calculate_risk_score]
    have hterm : (if h ≠ 0 ∧ h < 24 then (3 : ℚ)/10 else 0)
        ≤ (if h' ≠ 0 ∧ h' < 24 then (3 : ℚ)/10 else 0) := by
      split_ifs with a b b
      · exact le_refl _
      · exact absurd ⟨hz, lt_of_le_of_lt hh a.2⟩ b
      · norm_num
      · exact le_refl _
    linarith

/-- Closed instance of C4 (amended) with its hypotheses discharged. -/
theorem Polyman.risk_score_range_mono_witness :
    0 ≤ Polyman.calculate_risk_score 60000 (some 30) (2/10) ∧
    Polyman.calculate_risk_score 60000 (some 30) (2/10) ≤ 1 ∧
    Polyman.calculate_risk_score 60000 (some 30) (2/10)
      ≤ Polyman.calculate_risk_score 40000 (some 30) (2/10) ∧
    Polyman.calculate_risk_score 60000 (some 30) (2/10)
      ≤ Polyman.calculate_risk_score 60000 (some 30) (1/20) ∧
    Polyman.calculate_risk_score 60000 (some 30) (2/10)
      ≤ Polyman.calculate_risk_score 60000 (some 12) (2/10) := by
  have h := Polyman.risk_score_range_mono 60000 40000 (2/10) (1/20) 30 12
    (some 30) (by norm_num) (by norm_num) (by norm_num) (by norm_num)
  exact h

namespace Polyman

/-- The daily reset is idempotent within one observed day. -/
theorem reset_daily_counter_idem (today : ℕ) (s : RMState) :
    reset_daily_counter today (reset_daily_counter today s)
      = reset_daily_counter today s := by
  by_cases h1 : s.last_reset < today <;>
    simp [reset_daily_counter, h1]

/-- The daily reset never touches `open_positions`. -/
theorem reset_daily_counter_open (today : ℕ) (s : RMState) :
    (reset_daily_counter today s).open_positions = s.open_positions := by
  unfold reset_daily_counter
  split_ifs <;> rfl

/-- `can_trade` leaves the state exactly as the daily reset leaves it. -/
theorem can_trade_snd (cfg : Config) (today : ℕ) (s : RMState) :
    (can_trade cfg today s).2 = reset_daily_counter today s := by
  simp only [can_trade]
  split_ifs <;> rfl

/-- The flag returned by `can_trade` is insensitive to an already applied
daily reset. -/
theorem can_trade_fst_reset (cfg : Config) (today : ℕ) (s : RMState) :
    (can_trade cfg today (reset_daily_counter today s)).1
      = (can_trade cfg today s).1 := by
  unfold can_trade
  rw [reset_daily_counter_idem]

/-- The flag returned by `can_trade` holds exactly when both post-reset
counters are below their limits. -/
theorem can_trade_fst_iff (cfg : Config) (today : ℕ) (s : RMState) :
    (can_trade cfg today s).1 = true ↔
      (reset_daily_counter today s).daily_trades < cfg.MAX_DAILY_TRADES ∧
      (reset_daily_counter today s).open_positions < cfg.MAX_OPEN_POSITIONS := by
  simp only [can_trade]
  split_ifs with h1 h2 <;> simp <;> omega

/-- `_generate_reasoning` changes the state only through the `can_trade`
call of its reject branch. -/
theorem generate_reasoning_snd (cfg : Config) (today : ℕ) (s : RMState)
    (opp : OppData) (st : Bool) (fc rs : ℚ) :
    (generate_reasoning cfg today s opp st fc rs).2
      = if st then s else reset_daily_counter today s := by
  cases st <;> simp [generate_reasoning, can_trade_snd]

/-- The state left behind by the short-circuit step followed by the
rationale's `can_trade` call, for either value of the pure-condition
conjunction. -/
theorem step_reset (cfg : Config) (today : ℕ) (s : RMState) (b : Bool) :
    (if (if b = true then can_trade cfg today s else (false, s)).1 = true
      then (if b = true then can_trade cfg today s else (false, s)).2
      else reset_daily_counter today
        (if b = true then can_trade cfg today s else (false, s)).2)
      = reset_daily_counter today s := by
  cases b
  · simp
  · by_cases hc : (can_trade cfg today s).1 = true
    · simp [hc, can_trade_snd]
    · simp [hc, can_trade_snd, reset_daily_counter_idem]

/-- `evaluate_opportunity` always leaves the state exactly as the daily
reset leaves it: `can_trade` runs either inside the accept conjunction or
inside the rejection rationale, and a second reset is a no-op. -/
theorem evaluate_opportunity_snd (cfg : Config) (today : ℕ) (s : RMState)
    (opp : OppData) :
    (evaluate_opportunity cfg today s opp).2 = reset_daily_counter today s := by
  simp only [evaluate_opportunity, generate_reasoning_snd]
  exact step_reset cfg today s _

end Polyman

/-- C6: whenever `last_reset_date` is strictly earlier than the current
date, `evaluateOpportunity` resets `daily_trade_count` to 0 and sets
`last_reset_date` to the current date (the reset runs inside `can_trade`,
before the daily-trade-limit comparison); a second evaluation the same
day changes neither field (the whole state is unchanged). -/
theorem Polyman.evaluate_daily_reset (cfg : Polyman.Config) (today : ℕ)
    (s : Polyman.RMState) (opp : Polyman.OppData)
    (hlt : s.last_reset < today) :
    (Polyman.evaluate_opportunity cfg today s opp).2.daily_trades = 0 ∧
    (Polyman.evaluate_opportunity cfg today s opp).2.last_reset = today ∧
    ∀ opp2 : Polyman.OppData,
      (Polyman.evaluate_opportunity cfg today
          (Polyman.evaluate_opportunity cfg today s opp).2 opp2).2
        = (Polyman.evaluate_opportunity cfg today s opp).2 := by
  have h1 := Polyman.evaluate_opportunity_snd cfg today s opp
  refine ⟨?_, ?_, ?_⟩
  · rw [h1]
    simp [Polyman.reset_daily_counter, hlt]
  · rw [h1]
    simp [Polyman.reset_daily_counter, hlt]
  · intro opp2
    rw [Polyman.evaluate_opportunity_snd, h1]
    exact Polyman.reset_daily_counter_idem today s

/-- Closed instance of C6 with its hypothesis discharged: starting from
five trades recorded yesterday, an evaluation today zeroes the counter,
advances the date, and a repeated evaluation changes nothing. -/
theorem Polyman.evaluate_daily_reset_witness :
    (Polyman.evaluate_opportunity ⟨100, 7/10, 10, 20, 50⟩ 1
        ⟨5, 0, 0⟩ ⟨100000, none, 2/10, 1/2, 1/2, 10, []⟩).2.daily_trades = 0 ∧
    (Polyman.evaluate_opportunity ⟨100, 7/10, 10, 20, 50⟩ 1
        ⟨5, 0, 0⟩ ⟨100000, none, 2/10, 1/2, 1/2, 10, []⟩).2.last_reset = 1 ∧
    (Polyman.evaluate_opportunity ⟨100, 7/10, 10, 20, 50⟩ 1
        (Polyman.evaluate_opportunity ⟨100, 7/10, 10, 20, 50⟩ 1
          ⟨5, 0, 0⟩ ⟨100000, none, 2/10, 1/2, 1/2, 10, []⟩).2
        ⟨100000, none, 2/10, 1/2, 1/2, 10, []⟩).2
      = (Polyman.evaluate_opportunity ⟨100, 7/10, 10, 20, 50⟩ 1
          ⟨5, 0, 0⟩ ⟨100000, none, 2/10, 1/2, 1/2, 10, []⟩).2 := by
  have h := Polyman.evaluate_daily_reset ⟨100, 7/10, 10, 20, 50⟩ 1
    ⟨5, 0, 0⟩ ⟨100000, none, 2/10, 1/2, 1/2, 10, []⟩ (by norm_num)
  exact ⟨h.1, h.2.1, h.2.2 _⟩

namespace Polyman

/-- Single-operation preservation of counter non-negativity. -/
theorem applyOp_nonneg (cfg : Config) (s : RMState) (op : RMOp)
    (h : 0 ≤ s.daily_trades ∧ 0 ≤ s.open_positions) :
    0 ≤ (applyOp cfg s op).daily_trades ∧
    0 ≤ (applyOp cfg s op).open_positions := by
  cases op with
  | evaluate today opp =>
    rw [applyOp, evaluate_opportunity_snd]
    unfold reset_daily_counter
    split_ifs
    · exact ⟨le_refl 0, h.2⟩
    · exact h
  | record =>
    unfold applyOp record_trade
    constructor <;> simp <;> omega
  | close =>
    unfold applyOp close_position
    split_ifs with h1
    · exact ⟨h.1, by simp; omega⟩
    · exact h

/-- Non-negativity is preserved by any operation sequence. -/
theorem runOps_nonneg (cfg : Config) (ops : List RMOp) :
    ∀ s : RMState, 0 ≤ s.daily_trades ∧ 0 ≤ s.open_positions →
      0 ≤ (runOps cfg s ops).daily_trades ∧
      0 ≤ (runOps cfg s ops).open_positions := by
  induction ops with
  | nil => exact fun s h => h
  | cons op ops ih =>
    intro s h
    exact ih (applyOp cfg s op) (applyOp_nonneg cfg s op h)

end Polyman

/-- C7: in every state reachable from the initial state by any sequence
of evaluate / record_trade / close_position operations both counters stay
non-negative; `record_trade` increments both counters by one, and
`close_position` decrements `open_position_count` clamped at zero. -/
theorem Polyman.counters_reachable_nonneg (cfg : Polyman.Config)
    (today0 : ℕ) (ops : List Polyman.RMOp) :
    0 ≤ (Polyman.runOps cfg (Polyman.RMState.mkInitial today0) ops).daily_trades ∧
    0 ≤ (Polyman.runOps cfg (Polyman.RMState.mkInitial today0) ops).open_positions ∧
    (∀ s : Polyman.RMState,
      (Polyman.record_trade s).daily_trades = s.daily_trades + 1 ∧
      (Polyman.record_trade s).open_positions = s.open_positions + 1) ∧
    (∀ s : Polyman.RMState, 0 ≤ s.open_positions →
      (Polyman.close_position s).open_positions = max (s.open_positions - 1) 0) := by
  have h := Polyman.runOps_nonneg cfg ops (Polyman.RMState.mkInitial today0)
    ⟨le_refl 0, le_refl 0⟩
  refine ⟨h.1, h.2, fun s => ⟨rfl, rfl⟩, fun s hs => ?_⟩
  unfold Polyman.close_position
  split_ifs with h1 <;> (try simp) <;> omega

/-- Closed instance of C7 with its hypotheses discharged on a concrete
operation sequence (trade, trade, close, close, close). -/
theorem Polyman.counters_reachable_nonneg_witness :
    0 ≤ (Polyman.runOps ⟨100, 7/10, 10, 20, 50⟩
        (Polyman.RMState.mkInitial 0)
        [Polyman.RMOp.record, Polyman.RMOp.record, Polyman.RMOp.close,
         Polyman.RMOp.close, Polyman.RMOp.close]).daily_trades ∧
    0 ≤ (Polyman.runOps ⟨100, 7/10, 10, 20, 50⟩
        (Polyman.RMState.mkInitial 0)
        [Polyman.RMOp.record, Polyman.RMOp.record, Polyman.RMOp.close,
         Polyman.RMOp.close, Polyman.RMOp.close]).open_positions ∧
    (Polyman.close_position ⟨0, 0, 0⟩).open_positions = max (0 - 1) 0 := by
  have h := Polyman.counters_reachable_nonneg ⟨100, 7/10, 10, 20, 50⟩ 0
    [Polyman.RMOp.record, Polyman.RMOp.record, Polyman.RMOp.close,
     Polyman.RMOp.close, Polyman.RMOp.close]
  exact ⟨h.1, h.2.1, h.2.2.2 ⟨0, 0, 0⟩ (le_refl 0)⟩

namespace Polyman

/-- With real (non-mock) trading, `execute_trade` reports failure, so the
decision loop never records a trade and `open_positions` is unchanged. -/
theorem foldl_evaluate_open (cfg : Config) (today : ℕ) :
    ∀ (l : List OppData) (s : RMState),
      (l.foldl (fun st opp => (evaluate_opportunity cfg today st opp).2)
          s).open_positions = s.open_positions := by
  intro l
  induction l with
  | nil => exact fun s => rfl
  | cons o l ih =>
    intro s
    simp only [List.foldl]
    rw [ih, evaluate_opportunity_snd, reset_daily_counter_open]

theorem evaluate_and_execute_false_open (cfg : Config) (today : ℕ)
    (s : RMState) (opps : List OppData) :
    (evaluate_and_execute cfg today false s opps).open_positions
      = s.open_positions := by
  unfold evaluate_and_execute
  simp only [Bool.and_false, Bool.false_eq_true, if_false]
  exact foldl_evaluate_open cfg today (opps.take 10) s

end Polyman

/-- C10: `evaluate_opportunity` leaves the state exactly as the daily
reset leaves it — `open_position_count` unchanged, `daily_trade_count`
never increased — and with no successful execution (real-trading mode,
where `execute_trade` returns failure) the decision loop never increments
`open_position_count` either: increments happen only through
`record_trade` after a successful execution. -/
theorem Polyman.evaluate_frame (cfg : Polyman.Config) (today : ℕ)
    (s : Polyman.RMState) (opp : Polyman.OppData) :
    (Polyman.evaluate_opportunity cfg today s opp).2
      = Polyman.reset_daily_counter today s ∧
    (Polyman.evaluate_opportunity cfg today s opp).2.open_positions
      = s.open_positions ∧
    (0 ≤ s.daily_trades →
      (Polyman.evaluate_opportunity cfg today s opp).2.daily_trades
        ≤ s.daily_trades) ∧
    ∀ opps : List Polyman.OppData,
      (Polyman.evaluate_and_execute cfg today false s opps).open_positions
        = s.open_positions := by
  refine ⟨Polyman.evaluate_opportunity_snd cfg today s opp, ?_, ?_, ?_⟩
  · rw [Polyman.evaluate_opportunity_snd]
    exact Polyman.reset_daily_counter_open today s
  · intro hnn
    rw [Polyman.evaluate_opportunity_snd]
    unfold Polyman.reset_daily_counter
    split_ifs
    · exact hnn
    · exact le_refl _
  · exact Polyman.evaluate_and_execute_false_open cfg today s

/-- Closed instance of C10 with its hypothesis discharged. -/
theorem Polyman.evaluate_frame_witness :
    (Polyman.evaluate_opportunity ⟨100, 7/10, 10, 20, 50⟩ 1
        ⟨3, 0, 4⟩ ⟨100000, none, 2/10, 1/2, 1/2, 10, []⟩).2.open_positions = 4 ∧
    (Polyman.evaluate_opportunity ⟨100, 7/10, 10, 20, 50⟩ 1
        ⟨3, 0, 4⟩ ⟨100000, none, 2/10, 1/2, 1/2, 10, []⟩).2.daily_trades ≤ 3 ∧
    (Polyman.evaluate_and_execute ⟨100, 7/10, 10, 20, 50⟩ 1 false
        ⟨3, 0, 4⟩ [⟨100000, none, 2/10, 1/2, 1/2, 10, []⟩]).open_positions = 4 := by
  have h := Polyman.evaluate_frame ⟨100, 7/10, 10, 20, 50⟩ 1
    ⟨3, 0, 4⟩ ⟨100000, none, 2/10, 1/2, 1/2, 10, []⟩
  exact ⟨h.2.1, h.2.2.1 (by norm_num), h.2.2.2 _⟩

namespace Polyman

/-- The short-circuit step's flag is the conjunction of the pure
conditions with the `can_trade` flag. -/
theorem step_fst (b : Bool) (p : Bool × RMState) (s : RMState) :
    (if b = true then p else (false, s)).1 = (b && p.1) := by
  cases b <;> simp

/-- The `can_trade` flag is unchanged whether taken on the pre-step or
the post-step state. -/
theorem step_can_trade_fst (cfg : Config) (today : ℕ) (s : RMState) (b : Bool) :
    (can_trade cfg today
        (if b = true then can_trade cfg today s else (false, s)).2).1
      = (can_trade cfg today s).1 := by
  cases b
  · simp
  · show (can_trade cfg today (can_trade cfg today s).2).1
      = (can_trade cfg today s).1
    rw [can_trade_snd, can_trade_fst_reset]

end Polyman

/-- C2: `evaluate_opportunity` computes
`final_confidence = confidence * (1 - risk_score)` with the risk score
and Kelly position size taken from the signal primitives, and approves
exactly when all six conditions hold — the counter comparisons taken on
the post-reset state. -/
theorem Polyman.evaluate_should_trade_iff (cfg : Polyman.Config) (today : ℕ)
    (s : Polyman.RMState) (opp : Polyman.OppData) :
    (Polyman.evaluate_opportunity cfg today s opp).1.risk_score
      = Polyman.calculate_risk_score opp.volume opp.hours_to_expiry opp.edge ∧
    (Polyman.evaluate_opportunity cfg today s opp).1.final_confidence
      = opp.confidence
        * (1 - (Polyman.evaluate_opportunity cfg today s opp).1.risk_score) ∧
    (Polyman.evaluate_opportunity cfg today s opp).1.position_size
      = Polyman.calculate_kelly_size opp.edge opp.current_price
          cfg.MAX_POSITION_SIZE cfg.RISK_LIMIT_PER_TRADE ∧
    ((Polyman.evaluate_opportunity cfg today s opp).1.should_trade = true ↔
      (cfg.MIN_CONFIDENCE_THRESHOLD
          ≤ (Polyman.evaluate_opportunity cfg today s opp).1.final_confidence ∧
        0 < (Polyman.evaluate_opportunity cfg today s opp).1.position_size ∧
        5 < opp.expected_value ∧
        (Polyman.evaluate_opportunity cfg today s opp).1.risk_score < 1/2 ∧
        (Polyman.reset_daily_counter today s).daily_trades
          < cfg.MAX_DAILY_TRADES ∧
        (Polyman.reset_daily_counter today s).open_positions
          < cfg.MAX_OPEN_POSITIONS)) := by
  refine ⟨rfl, rfl, rfl, ?_⟩
  simp only [Polyman.evaluate_opportunity]
  split_ifs with hP <;>
    simp only [Bool.and_eq_true, decide_eq_true_eq] at hP
  · rw [Polyman.can_trade_fst_iff]
    tauto
  · simp only [Bool.false_eq_true, false_iff]
    tauto

namespace Polyman

/-- Characterization of the rationale on rejection: the four appended
groups of `_generate_reasoning`, with the trade-limit group's flag taken
on the pre-call state. -/
theorem evaluate_reasoning_of_reject (cfg : Config) (today : ℕ)
    (s : RMState) (opp : OppData)
    (hr : (evaluate_opportunity cfg today s opp).1.should_trade = false) :
    (evaluate_opportunity cfg today s opp).1.reasoning =
      (if (evaluate_opportunity cfg today s opp).1.final_confidence
            < cfg.MIN_CONFIDENCE_THRESHOLD
        then [ReasonTag.insufficientConfidence] else [])
      ++ (if opp.expected_value ≤ 5
        then [ReasonTag.expectedValueTooSmall] else [])
      ++ (if 1/2 < (evaluate_opportunity cfg today s opp).1.risk_score
        then [ReasonTag.riskTooHigh] else [])
      ++ (if (can_trade cfg today s).1 = false
        then [ReasonTag.tradeLimitReached] else []) := by
  simp only [evaluate_opportunity] at hr ⊢
  rw [hr]
  simp only [generate_reasoning, Bool.false_eq_true, if_false,
    step_can_trade_fst, List.append_assoc]

end Polyman

/-- C8 counterexample: with threshold 0.5, an opportunity whose only
failed condition is `positionSize > 0` (edge 0.01, price 0.5 gives Kelly
size 0) is rejected with an empty rationale — the failed condition is
not mentioned, refuting "the rationale enumerates every condition that
failed". -/
theorem Polyman.evaluate_reject_silent_cex :
    (Polyman.evaluate_opportunity ⟨100, 1/2, 10, 20, 50⟩ 0
        (Polyman.RMState.mkInitial 0)
        ⟨100000, none, 1/100, 1, 1/2, 10, []⟩).1.should_trade = false ∧
    (Polyman.evaluate_opportunity ⟨100, 1/2, 10, 20, 50⟩ 0
        (Polyman.RMState.mkInitial 0)
        ⟨100000, none, 1/100, 1, 1/2, 10, []⟩).1.position_size = 0 ∧
    (Polyman.evaluate_opportunity ⟨100, 1/2, 10, 20, 50⟩ 0
        (Polyman.RMState.mkInitial 0)
        ⟨100000, none, 1/100, 1, 1/2, 10, []⟩).1.reasoning = [] := by
  norm_num [Polyman.evaluate_opportunity, Polyman.calculate_risk_score,
    Polyman.calculate_kelly_size, Polyman.truncQ, Polyman.generate_reasoning,
    Polyman.can_trade, Polyman.reset_daily_counter, Polyman.RMState.mkInitial]

/-- C8 (amended): on rejection the rationale mentions each failed
condition among low confidence, expected value ≤ 5, risk score > 0.5 and
the trade-limit check; a failed `positionSize > 0` condition has no
rationale entry (it can be the sole failure, leaving the rationale
empty).  In particular a final confidence below the threshold forces
rejection and an insufficient-confidence mention. -/
theorem Polyman.evaluate_reject_mentions (cfg : Polyman.Config) (today : ℕ)
    (s : Polyman.RMState) (opp : Polyman.OppData)
    (hr : (Polyman.evaluate_opportunity cfg today s opp).1.should_trade
      = false) :
    ((Polyman.evaluate_opportunity cfg today s opp).1.final_confidence
        < cfg.MIN_CONFIDENCE_THRESHOLD →
      Polyman.ReasonTag.insufficientConfidence
        ∈ (Polyman.evaluate_opportunity cfg today s opp).1.reasoning) ∧
    (opp.expected_value ≤ 5 →
      Polyman.ReasonTag.expectedValueTooSmall
        ∈ (Polyman.evaluate_opportunity cfg today s opp).1.reasoning) ∧
    (1/2 < (Polyman.evaluate_opportunity cfg today s opp).1.risk_score →
      Polyman.ReasonTag.riskTooHigh
        ∈ (Polyman.evaluate_opportunity cfg today s opp).1.reasoning) ∧
    ((Polyman.can_trade cfg today s).1 = false →
      Polyman.ReasonTag.tradeLimitReached
        ∈ (Polyman.evaluate_opportunity cfg today s opp).1.reasoning) := by
  rw [Polyman.evaluate_reasoning_of_reject cfg today s opp hr]
  refine ⟨fun h => ?_, fun h => ?_, fun h => ?_, fun h => ?_⟩ <;>
    rw [if_pos h] <;> simp

/-- Closed instance of C8 (amended), realizing the spec's scenario:
final confidence 0.5 against threshold 0.7 rejects and the rationale
mentions insufficient confidence. -/
theorem Polyman.evaluate_reject_mentions_witness :
    (Polyman.evaluate_opportunity ⟨100, 7/10, 10, 20, 50⟩ 0
        (Polyman.RMState.mkInitial 0)
        ⟨100000, none, 2/10, 1/2, 1/2, 10, []⟩).1.final_confidence = 1/2 ∧
    (Polyman.evaluate_opportunity ⟨100, 7/10, 10, 20, 50⟩ 0
        (Polyman.RMState.mkInitial 0)
        ⟨100000, none, 2/10, 1/2, 1/2, 10, []⟩).1.should_trade = false ∧
    Polyman.ReasonTag.insufficientConfidence
      ∈ (Polyman.evaluate_opportunity ⟨100, 7/10, 10, 20, 50⟩ 0
          (Polyman.RMState.mkInitial 0)
          ⟨100000, none, 2/10, 1/2, 1/2, 10, []⟩).1.reasoning := by
  refine ⟨?_, ?_, ?_⟩
  · norm_num [Polyman.evaluate_opportunity, Polyman.calculate_risk_score]
  · norm_num [Polyman.evaluate_opportunity, Polyman.calculate_risk_score,
      Polyman.calculate_kelly_size, Polyman.truncQ]
  · exact (Polyman.evaluate_reject_mentions ⟨100, 7/10, 10, 20, 50⟩ 0
      (Polyman.RMState.mkInitial 0) ⟨100000, none, 2/10, 1/2, 1/2, 10, []⟩
      (by norm_num [Polyman.evaluate_opportunity, Polyman.calculate_risk_score,
        Polyman.calculate_kelly_size, Polyman.truncQ])).1
      (by norm_num [Polyman.evaluate_opportunity, Polyman.calculate_risk_score])

namespace Polyman

/-- Every judgment failure the claim names — no reply (timeout,
unreachable, unparsable JSON) or a confidence below the configured
floor — makes `_analyze_with_llm` return the empty list. -/
theorem analyze_with_llm_failure_empty (sc : ExpiringConfig) (m : ExpMarket)
    (prices : List ℚ) (outcomes : List String) (hours_to_exp volume : ℚ)
    (reply : Option LLMParsed)
    (hfail : reply = none ∨ ∃ r : LLMParsed, reply = some r ∧
      r.confidence < sc.llm_confidence_threshold) :
    analyze_with_llm sc m prices outcomes hours_to_exp volume reply = [] := by
  rcases hfail with rfl | ⟨r, rfl, hc⟩
  · rfl
  · simp only [analyze_with_llm]
    by_cases hop : r.has_opportunity = false
    · simp [hop]
    · simp [hop, hc]

end Polyman

/-- C9: for every market passing the expiring-market eligibility filter,
a judgment failure (no/unparsable reply, or confidence below the floor)
makes `analyze_market` fall back to the rule-based expiring-market
analysis, returning exactly that (possibly empty) opportunity list. -/
theorem Polyman.analyze_market_llm_fallback (sc : Polyman.ExpiringConfig)
    (m : Polyman.ExpMarket) (h : ℚ) (reply : Option Polyman.LLMParsed)
    (hh : m.hoursToExpiry = some h)
    (hwin : ¬(sc.max_hours_to_expiry < h ∨ h < sc.min_hours_to_expiry))
    (hvol : ¬(m.volume < sc.min_volume))
    (hfail : reply = none ∨ ∃ r : Polyman.LLMParsed, reply = some r ∧
      r.confidence < sc.llm_confidence_threshold) :
    Polyman.analyze_market sc true reply m
      = Polyman.analyze_with_rules sc m m.prices m.outcomes h m.volume := by
  have hempty := Polyman.analyze_with_llm_failure_empty sc m m.prices
    m.outcomes h m.volume reply hfail
  simp only [Polyman.analyze_market, hh]
  rw [if_neg hwin, if_neg hvol]
  simp [hempty]

/-- Closed instance of C9 with its hypotheses discharged: an eligible
market (10 hours to expiry inside [2, 48], volume 20000 over the 10000
floor) analyzed with a failed judgment call falls back to the rule-based
result. -/
theorem Polyman.analyze_market_llm_fallback_witness :
    Polyman.analyze_market ⟨95/100, 48, 2, 10000, 7/10⟩ true none
        ⟨"c1", "q", some 10, 20000, [97/100, 3/100], ["Yes", "No"]⟩
      = Polyman.analyze_with_rules ⟨95/100, 48, 2, 10000, 7/10⟩
          ⟨"c1", "q", some 10, 20000, [97/100, 3/100], ["Yes", "No"]⟩
          [97/100, 3/100] ["Yes", "No"] 10 20000 := by
  exact Polyman.analyze_market_llm_fallback ⟨95/100, 48, 2, 10000, 7/10⟩
    ⟨"c1", "q", some 10, 20000, [97/100, 3/100], ["Yes", "No"]⟩ 10 none
    rfl (by norm_num) (by norm_num) (Or.inl rfl)

namespace Polyman

/-- Elements of the dedup map come from the old map or are the new
opportunity. -/
theorem updateSlot_mem (acc : List MarketOpportunity)
    (opp p : MarketOpportunity) (hp : p ∈ updateSlot acc opp) :
    p ∈ acc ∨ p = opp := by
  induction acc with
  | nil =>
    simp [updateSlot] at hp
    exact Or.inr hp
  | cons q rest ih =>
    simp only [updateSlot] at hp
    split_ifs at hp with hid hev
    · rcases List.mem_cons.mp hp with h1 | h1
      · exact Or.inr h1
      · exact Or.inl (List.mem_cons_of_mem q h1)
    · exact Or.inl hp
    · rcases List.mem_cons.mp hp with h1 | h1
      · exact Or.inl (by rw [h1]; exact List.mem_cons_self q rest)
      · rcases ih h1 with h2 | h2
        · exact Or.inl (List.mem_cons_of_mem q h2)
        · exact Or.inr h2

/-- An existing entry keeps a successor with its market id and at least
its expected value after one dedup step. -/
theorem updateSlot_dominates_old (acc : List MarketOpportunity)
    (opp p : MarketOpportunity) (hp : p ∈ acc) :
    ∃ p' ∈ updateSlot acc opp, p'.market_id = p.market_id ∧
      p.expected_value ≤ p'.expected_value := by
  induction acc with
  | nil => cases hp
  | cons q rest ih =>
    simp only [updateSlot]
    split_ifs with hid hev
    · rcases List.mem_cons.mp hp with h1 | h1
      · exact ⟨opp, List.mem_cons_self _ _,
          by rw [h1, ← hid], by rw [h1]; exact hev.le⟩
      · exact ⟨p, List.mem_cons_of_mem _ h1, rfl, le_refl _⟩
    · rcases List.mem_cons.mp hp with h1 | h1
      · exact ⟨q, List.mem_cons_self _ _, by rw [h1], by rw [h1]⟩
      · exact ⟨p, List.mem_cons_of_mem _ h1, rfl, le_refl _⟩
    · rcases List.mem_cons.mp hp with h1 | h1
      · exact ⟨q, List.mem_cons_self _ _, by rw [h1], by rw [h1]⟩
      · obtain ⟨p', hp', hid', hev'⟩ := ih h1
        exact ⟨p', List.mem_cons_of_mem _ hp', hid', hev'⟩

/-- The inserted opportunity is dominated by some entry of the updated
map with its market id. -/
theorem updateSlot_dominates_new (acc : List MarketOpportunity)
    (opp : MarketOpportunity) :
    ∃ p' ∈ updateSlot acc opp, p'.market_id = opp.market_id ∧
      opp.expected_value ≤ p'.expected_value := by
  induction acc with
  | nil => exact ⟨opp, by simp [updateSlot], rfl, le_refl _⟩
  | cons q rest ih =>
    simp only [updateSlot]
    split_ifs with hid hev
    · exact ⟨opp, List.mem_cons_self _ _, rfl, le_refl _⟩
    · exact ⟨q, List.mem_cons_self _ _, hid, not_lt.mp hev⟩
    · obtain ⟨p', hp', h1, h2⟩ := ih
      exact ⟨p', List.mem_cons_of_mem _ hp', h1, h2⟩

/-- Domination of map entries survives the rest of the dedup fold. -/
theorem foldl_updateSlot_dominates_acc (l : List MarketOpportunity) :
    ∀ (acc : List MarketOpportunity) (p : MarketOpportunity), p ∈ acc →
      ∃ p' ∈ List.foldl updateSlot acc l, p'.market_id = p.market_id ∧
        p.expected_value ≤ p'.expected_value := by
  induction l with
  | nil => exact fun acc p hp => ⟨p, hp, rfl, le_refl _⟩
  | cons o rest ih =>
    intro acc p hp
    obtain ⟨q, hq, hid, hev⟩ := updateSlot_dominates_old acc o p hp
    obtain ⟨p', hp', hid', hev'⟩ := ih (updateSlot acc o) q hq
    exact ⟨p', hp', hid'.trans hid, hev.trans hev'⟩

/-- Every processed opportunity is dominated by some entry of the final
dedup map sharing its market id. -/
theorem foldl_updateSlot_dominates_mem (l : List MarketOpportunity) :
    ∀ (acc : List MarketOpportunity) (o : MarketOpportunity), o ∈ l →
      ∃ p ∈ List.foldl updateSlot acc l, p.market_id = o.market_id ∧
        o.expected_value ≤ p.expected_value := by
  induction l with
  | nil => intro acc o h; cases h
  | cons x rest ih =>
    intro acc o ho
    rcases List.mem_cons.mp ho with h1 | h1
    · obtain ⟨q, hq, hid, hev⟩ := updateSlot_dominates_new acc x
      obtain ⟨p, hp, hid', hev'⟩ :=
        foldl_updateSlot_dominates_acc rest (updateSlot acc x) q hq
      exact ⟨p, hp, by rw [hid'.trans hid, h1], by rw [h1]; exact hev.trans hev'⟩
    · exact ih (updateSlot acc x) o h1

/-- Entries of the dedup fold come from the accumulator or the input. -/
theorem foldl_updateSlot_sound (l : List MarketOpportunity) :
    ∀ (acc : List MarketOpportunity) (p : MarketOpportunity),
      p ∈ List.foldl updateSlot acc l → p ∈ acc ∨ p ∈ l := by
  induction l with
  | nil => exact fun acc p hp => Or.inl hp
  | cons x rest ih =>
    intro acc p hp
    rcases ih (updateSlot acc x) p hp with h1 | h1
    · rcases updateSlot_mem acc x p h1 with h2 | h2
      · exact Or.inl h2
      · exact Or.inr (by rw [h2]; exact List.mem_cons_self x rest)
    · exact Or.inr (List.mem_cons_of_mem x h1)

/-- One dedup step either keeps the key list unchanged (id already
present) or appends the new id. -/
theorem updateSlot_ids (acc : List MarketOpportunity)
    (opp : MarketOpportunity) :
    (updateSlot acc opp).map (fun o => o.market_id)
      = if opp.market_id ∈ acc.map (fun o => o.market_id)
        then acc.map (fun o => o.market_id)
        else acc.map (fun o => o.market_id) ++ [opp.market_id] := by
  induction acc with
  | nil => simp [updateSlot]
  | cons q rest ih =>
    by_cases hid : q.market_id = opp.market_id
    · simp only [List.map_cons]
      rw [if_pos (List.mem_cons.mpr (Or.inl hid.symm))]
      simp only [updateSlot, if_pos hid]
      by_cases hev : q.expected_value < opp.expected_value
      · rw [if_pos hev]
        simp [hid]
      · rw [if_neg hev]
        simp
    · simp only [updateSlot, if_neg hid, List.map_cons]
      rw [ih]
      by_cases hmem : opp.market_id ∈ rest.map (fun o => o.market_id)
      · rw [if_pos hmem, if_pos (List.mem_cons.mpr (Or.inr hmem))]
      · rw [if_neg hmem, if_neg ?_]
        · simp
        · intro hcon
          rcases List.mem_cons.mp hcon with h2 | h2
          · exact hid h2.symm
          · exact hmem h2

/-- One dedup step preserves distinctness of the keys. -/
theorem updateSlot_ids_nodup (acc : List MarketOpportunity)
    (opp : MarketOpportunity)
    (h : (acc.map (fun o => o.market_id)).Nodup) :
    ((updateSlot acc opp).map (fun o => o.market_id)).Nodup := by
  rw [updateSlot_ids]
  split_ifs with hmem
  · exact h
  · simp [List.nodup_append, h, hmem]

/-- The dedup fold preserves distinctness of the keys. -/
theorem foldl_updateSlot_ids_nodup (l : List MarketOpportunity) :
    ∀ acc : List MarketOpportunity,
      ((acc.map (fun o => o.market_id)).Nodup) →
      ((List.foldl updateSlot acc l).map (fun o => o.market_id)).Nodup := by
  induction l with
  | nil => exact fun acc h => h
  | cons x rest ih =>
    intro acc h
    exact ih (updateSlot acc x) (updateSlot_ids_nodup acc x h)

end Polyman

namespace Polyman

/-- `orderedInsert` under the descending expected-value order inserts an
element before exactly the tied and smaller elements, so the sublist of
any fixed expected value gains the new element at its front when it
matches and is untouched otherwise. -/
theorem filter_orderedInsert_ev (c : ℚ) (a : MarketOpportunity) :
    ∀ l : List MarketOpportunity,
      (List.orderedInsert evGe a l).filter
          (fun o => decide (o.expected_value = c))
        = if a.expected_value = c
          then a :: l.filter (fun o => decide (o.expected_value = c))
          else l.filter (fun o => decide (o.expected_value = c)) := by
  intro l
  induction l with
  | nil =>
    simp only [List.orderedInsert, List.filter_cons, List.filter_nil]
    by_cases hac : a.expected_value = c <;> simp [hac]
  | cons b bs ih =>
    simp only [List.orderedInsert]
    by_cases hr : evGe a b
    · rw [if_pos hr]
      by_cases hac : a.expected_value = c <;>
        by_cases hbc : b.expected_value = c <;>
        simp [List.filter_cons, hac, hbc]
    · rw [if_neg hr]
      have hab : a.expected_value < b.expected_value := not_le.mp hr
      by_cases hac : a.expected_value = c <;>
        by_cases hbc : b.expected_value = c
      · exact absurd (hac.trans hbc.symm) (ne_of_lt hab)
      · simp [List.filter_cons, hac, hbc, ih]
      · simp [List.filter_cons, hac, hbc, ih]
      · simp [List.filter_cons, hac, hbc, ih]

/-- The stable sort preserves the relative order of tied elements: the
sublist at any fixed expected value is unchanged. -/
theorem filter_insertionSort_ev (c : ℚ) :
    ∀ l : List MarketOpportunity,
      (l.insertionSort evGe).filter (fun o => decide (o.expected_value = c))
        = l.filter (fun o => decide (o.expected_value = c)) := by
  intro l
  induction l with
  | nil => rfl
  | cons x xs ih =>
    simp only [List.insertionSort]
    rw [filter_orderedInsert_ev]
    by_cases hxc : x.expected_value = c <;>
      simp [List.filter_cons, hxc, ih]

end Polyman

/-- C5 counterexample: with input `[oppA (m1, 10), oppB (m2, 25),
oppC (m1, 25)]`, dedup keeps `oppC` in the slot where `m1` first
appeared, so the tied survivors come out as `[oppC, oppB]` — not in the
original insertion order, where `oppB` (position 1) precedes `oppC`
(position 2); a stable sort over insertion order would give
`[oppB, oppC]`. -/
theorem Polyman.aggregate_tie_order_cex :
    (Polyman.aggregate [Polyman.oppA, Polyman.oppB, Polyman.oppC]).map
        (fun o => (o.market_id, o.question))
      = [("m1", "qC"), ("m2", "qB")] ∧
    Polyman.oppB.expected_value = Polyman.oppC.expected_value ∧
    (Polyman.aggregate [Polyman.oppA, Polyman.oppB, Polyman.oppC]).map
        (fun o => (o.market_id, o.question))
      ≠ [("m2", "qB"), ("m1", "qC")] := by
  have h : (Polyman.aggregate [Polyman.oppA, Polyman.oppB, Polyman.oppC]).map
      (fun o => (o.market_id, o.question)) = [("m1", "qC"), ("m2", "qB")] := by
    norm_num [Polyman.aggregate, Polyman.dedup_by_market, Polyman.updateSlot,
      Polyman.oppA, Polyman.oppB, Polyman.oppC, Polyman.MarketOpportunity.make,
      List.insertionSort, List.orderedInsert, Polyman.evGe]
  refine ⟨h, rfl, ?_⟩
  rw [h]
  simp

/-- C5 (amended): the aggregation step returns the deduplicated
opportunities sorted by `expected_value` descending; every survivor is an
input opportunity dominating (in expected value) every input that shares
its market id; every input market id survives; survivors have pairwise
distinct market ids; on ties the survivors keep the dedup map's order —
the order in which their market ids first appeared, not the insertion
order of the surviving opportunities themselves; and of two opportunities
for one market with expected values 10 and 25 the one with 25 is kept. -/
theorem Polyman.aggregate_spec (l : List Polyman.MarketOpportunity) :
    List.Sorted Polyman.evGe (Polyman.aggregate l) ∧
    (∀ p ∈ Polyman.aggregate l, p ∈ l) ∧
    (∀ o ∈ l, ∃ p ∈ Polyman.aggregate l,
      p.market_id = o.market_id ∧ o.expected_value ≤ p.expected_value) ∧
    ((Polyman.aggregate l).map (fun o => o.market_id)).Nodup ∧
    (∀ p ∈ Polyman.aggregate l, ∀ o ∈ l, o.market_id = p.market_id →
      o.expected_value ≤ p.expected_value) ∧
    (∀ c : ℚ,
      (Polyman.aggregate l).filter (fun o => decide (o.expected_value = c))
        = (Polyman.dedup_by_market l).filter
            (fun o => decide (o.expected_value = c))) ∧
    Polyman.aggregate [Polyman.oppX, Polyman.oppY] = [Polyman.oppY] := by
  have hsorted : List.Sorted Polyman.evGe (Polyman.aggregate l) :=
    List.sorted_insertionSort Polyman.evGe (Polyman.dedup_by_market l)
  have hsound : ∀ p ∈ Polyman.aggregate l, p ∈ l := by
    intro p hp
    rw [Polyman.aggregate, List.mem_insertionSort] at hp
    rcases Polyman.foldl_updateSlot_sound l [] p hp with h1 | h1
    · cases h1
    · exact h1
  have hdom : ∀ o ∈ l, ∃ p ∈ Polyman.aggregate l,
      p.market_id = o.market_id ∧ o.expected_value ≤ p.expected_value := by
    intro o ho
    obtain ⟨p, hp, h1, h2⟩ := Polyman.foldl_updateSlot_dominates_mem l [] o ho
    exact ⟨p, (List.mem_insertionSort _).mpr hp, h1, h2⟩
  have hnodup : ((Polyman.aggregate l).map (fun o => o.market_id)).Nodup := by
    have hperm := (List.perm_insertionSort Polyman.evGe
      (Polyman.dedup_by_market l)).map (fun o => o.market_id)
    exact hperm.nodup_iff.mpr
      (Polyman.foldl_updateSlot_ids_nodup l [] (by simp))
  refine ⟨hsorted, hsound, hdom, hnodup, ?_, ?_, ?_⟩
  · intro p hp o ho hid
    obtain ⟨p', hp', hid', hev'⟩ := hdom o ho
    have hpp : p' = p := by
      have := List.inj_on_of_nodup_map hnodup
      exact this hp' hp (by rw [hid', hid])
    rw [← hpp]
    exact hev'
  · intro c
    exact Polyman.filter_insertionSort_ev c (Polyman.dedup_by_market l)
  · norm_num [Polyman.aggregate, Polyman.dedup_by_market, Polyman.updateSlot,
      Polyman.oppX, Polyman.oppY, Polyman.MarketOpportunity.make,
      List.insertionSort, List.orderedInsert, Polyman.evGe]

/-- Closed instance of C2: the decision formula evaluated on a concrete
configuration, state and opportunity. -/
theorem Polyman.evaluate_should_trade_iff_witness :
    (Polyman.evaluate_opportunity ⟨100, 7/10, 10, 20, 50⟩ 0
        (Polyman.RMState.mkInitial 0)
        ⟨100000, none, 2/10, 1/2, 1/2, 10, []⟩).1.final_confidence
      = (⟨100000, none, 2/10, 1/2, 1/2, 10, []⟩ : Polyman.OppData).confidence
        * (1 - (Polyman.evaluate_opportunity ⟨100, 7/10, 10, 20, 50⟩ 0
            (Polyman.RMState.mkInitial 0)
            ⟨100000, none, 2/10, 1/2, 1/2, 10, []⟩).1.risk_score) ∧
    ((Polyman.evaluate_opportunity ⟨100, 7/10, 10, 20, 50⟩ 0
        (Polyman.RMState.mkInitial 0)
        ⟨100000, none, 2/10, 1/2, 1/2, 10, []⟩).1.should_trade = true ↔
      ((7:ℚ)/10 ≤ (Polyman.evaluate_opportunity ⟨100, 7/10, 10, 20, 50⟩ 0
          (Polyman.RMState.mkInitial 0)
          ⟨100000, none, 2/10, 1/2, 1/2, 10, []⟩).1.final_confidence ∧
        0 < (Polyman.evaluate_opportunity ⟨100, 7/10, 10, 20, 50⟩ 0
          (Polyman.RMState.mkInitial 0)
          ⟨100000, none, 2/10, 1/2, 1/2, 10, []⟩).1.position_size ∧
        (5:ℚ) < 10 ∧
        (Polyman.evaluate_opportunity ⟨100, 7/10, 10, 20, 50⟩ 0
          (Polyman.RMState.mkInitial 0)
          ⟨100000, none, 2/10, 1/2, 1/2, 10, []⟩).1.risk_score < 1/2 ∧
        (Polyman.reset_daily_counter 0
          (Polyman.RMState.mkInitial 0)).daily_trades < 10 ∧
        (Polyman.reset_daily_counter 0
          (Polyman.RMState.mkInitial 0)).open_positions < 20)) := by
  have h := Polyman.evaluate_should_trade_iff ⟨100, 7/10, 10, 20, 50⟩ 0
    (Polyman.RMState.mkInitial 0) ⟨100000, none, 2/10, 1/2, 1/2, 10, []⟩
  exact ⟨h.2.1, h.2.2.2⟩

/-- Closed instance of C5 (amended): sortedness, dominance with its
membership hypotheses discharged, and the 10-versus-25 dedup scenario at
concrete inputs. -/
theorem Polyman.aggregate_spec_witness :
    List.Sorted Polyman.evGe
      (Polyman.aggregate [Polyman.oppA, Polyman.oppB, Polyman.oppC]) ∧
    (∃ p ∈ Polyman.aggregate [Polyman.oppA, Polyman.oppB, Polyman.oppC],
      p.market_id = Polyman.oppA.market_id ∧
      Polyman.oppA.expected_value ≤ p.expected_value) ∧
    Polyman.aggregate [Polyman.oppX, Polyman.oppY] = [Polyman.oppY] := by
  have h := Polyman.aggregate_spec [Polyman.oppA, Polyman.oppB, Polyman.oppC]
  exact ⟨h.1, h.2.2.1 Polyman.oppA (by simp),
    (Polyman.aggregate_spec [Polyman.oppX, Polyman.oppY]).2.2.2.2.2.2⟩
